import Mathlib

/-!
Verification of the two-qubit exchange-evolution notebook
(`2-qubitEvolution.ipynb`).

The numerical core of the repository is embedded shallowly:

* `kron2` / `kronVec` are the numpy `np.kron` semantics for 2×2 blocks
  and 2-vectors (flat row-major indexing, entry `(i, j)` of the product
  is `A[i/2, j/2] * B[i%2, j%2]`);
* the six two-spin Pauli operators, the Hamiltonian `H`, the initial
  state `psi0`, the time grid, the trajectory `psiT` and the six
  expectation-value series are translated line by line from the source;
* floating point is modelled by exact real/complex arithmetic, and
  `scipy.linalg.expm` by Mathlib's matrix exponential `NormedSpace.exp ℂ`.
-/

open scoped Matrix ComplexConjugate
open NormedSpace

abbrev Mat2 := Matrix (Fin 2) (Fin 2) ℂ

abbrev Mat4 := Matrix (Fin 4) (Fin 4) ℂ

abbrev Vec2 := Fin 2 → ℂ

abbrev Vec4 := Fin 4 → ℂ

/-- numpy `np.kron` for two 2×2 matrices: the 4×4 matrix whose flat
entry `(i, j)` is `A[i / 2, j / 2] * B[i % 2, j % 2]`. -/
def kron2 (A B : Mat2) : Mat4 := fun i j =>
  A ⟨i.val / 2, by omega⟩ ⟨j.val / 2, by omega⟩ *
    B ⟨i.val % 2, by omega⟩ ⟨j.val % 2, by omega⟩

/-- numpy `np.kron` for two 2-vectors: the 4-vector whose flat entry `i`
is `u[i / 2] * v[i % 2]`. -/
def kronVec (u v : Vec2) : Vec4 := fun i =>
  u ⟨i.val / 2, by omega⟩ * v ⟨i.val % 2, by omega⟩

/-- `identity = np.array([[1,0],[0,1]])`. -/
def identity : Mat2 := !![1, 0; 0, 1]

/-- `sigma1Z = np.kron(np.array([[1,0],[0,-1]]), identity)`. -/
def sigma1Z : Mat4 := kron2 !![1, 0; 0, -1] identity

/-- `sigma1X = np.kron(np.array([[0,1],[1,0]]), identity)`. -/
def sigma1X : Mat4 := kron2 !![0, 1; 1, 0] identity

/-- `sigma1Y = np.kron(np.array([[0,-1j],[1j,0]]), identity)`. -/
def sigma1Y : Mat4 := kron2 !![0, -Complex.I; Complex.I, 0] identity

/-- `sigma2Z = np.kron(identity, np.array([[1,0],[0,-1]]))`. -/
def sigma2Z : Mat4 := kron2 identity !![1, 0; 0, -1]

/-- `sigma2X = np.kron(identity, np.array([[0,1],[1,0]]))`. -/
def sigma2X : Mat4 := kron2 identity !![0, 1; 1, 0]

/-- `sigma2Y = np.kron(identity, np.array([[0,-1j],[1j,0]]))`. -/
def sigma2Y : Mat4 := kron2 identity !![0, -Complex.I; Complex.I, 0]

/-- `J = 2 * np.pi`. -/
noncomputable def J : ℝ := 2 * Real.pi

/-- `scipy.constants.hbar`, the reduced Planck constant. -/
def hbar : ℝ := 1.054571817e-34

/-- `H = J * hbar/4 * (sigma1X@sigma2X + sigma1Y@sigma2Y + sigma1Z@sigma2Z)`,
with the constant prefactor abstracted as a parameter `hb` so that the
role of `hbar` in the pipeline can be stated; the notebook's `H` is
`Hgen hbar`. -/
noncomputable def Hgen (hb : ℝ) : Mat4 :=
  ((J * hb / 4 : ℝ) : ℂ) • (sigma1X * sigma2X + sigma1Y * sigma2Y + sigma1Z * sigma2Z)

/-- The notebook's Hamiltonian `H`. -/
noncomputable def H : Mat4 := Hgen hbar

/-- `psi1 = np.array([1,0])`. -/
def psi1 : Vec2 := ![1, 0]

/-- `psi2 = np.array([1,1])/np.sqrt(2)`. -/
noncomputable def psi2 : Vec2 := fun i => (![1, 1] : Vec2) i / (Real.sqrt 2 : ℂ)

/-- `psi0 = np.kron(psi1, psi2)`. -/
noncomputable def psi0 : Vec4 := kronVec psi1 psi2

/-- `time = np.linspace(0, 0.5, 101)`: 101 evenly spaced samples,
`time[k] = k * (0.5 / 100)`. -/
noncomputable def timeGrid : List ℝ := (List.range 101).map fun k : ℕ => (0.5 / 100) * (k : ℝ)

/-- The matrix `-1j*H*t/hbar` handed to `expm`, elementwise exactly as
numpy broadcasts it, with `hbar` as a parameter `hb`. -/
noncomputable def expArg (hb t : ℝ) : Mat4 := fun a b =>
  -Complex.I * Hgen hb a b * (t : ℂ) / (hb : ℂ)

/-- One loop iteration of the propagation cell,
`expm(-1j*H*t/hbar) @ psi0`, with `hbar` as a parameter. -/
noncomputable def psiTGen (hb t : ℝ) : Vec4 :=
  (exp ℂ (expArg hb t)).mulVec psi0

/-- The trajectory list built by
`for t in time: psiT.append(expm(-1j*H*t/hbar) @ psi0)`,
with `hbar` as a parameter. -/
noncomputable def trajGen (hb : ℝ) : List Vec4 :=
  timeGrid.map fun t => psiTGen hb t

/-- The notebook's trajectory `psiT`. -/
noncomputable def psiT : List Vec4 := trajGen hbar

/-- The expectation value `(p.conj().T @ sigma @ p).real` computed for
each state of the trajectory. -/
noncomputable def expval (sigma : Mat4) (p : Vec4) : ℝ :=
  ((star p ᵥ* sigma) ⬝ᵥ p).re

/-- `x1 = [(p.conj().T @ sigma1X @ p).real for p in psiT]`. -/
noncomputable def x1 : List ℝ := psiT.map fun p => expval sigma1X p

/-- `y1 = [(p.conj().T @ sigma1Y @ p).real for p in psiT]`. -/
noncomputable def y1 : List ℝ := psiT.map fun p => expval sigma1Y p

/-- `z1 = [(p.conj().T @ sigma1Z @ p).real for p in psiT]`. -/
noncomputable def z1 : List ℝ := psiT.map fun p => expval sigma1Z p

/-- `x2 = [(p.conj().T @ sigma2X @ p).real for p in psiT]`. -/
noncomputable def x2 : List ℝ := psiT.map fun p => expval sigma2X p

/-- `y2 = [(p.conj().T @ sigma2Y @ p).real for p in psiT]`. -/
noncomputable def y2 : List ℝ := psiT.map fun p => expval sigma2Y p

/-- `z2 = [(p.conj().T @ sigma2Z @ p).real for p in psiT]`. -/
noncomputable def z2 : List ℝ := psiT.map fun p => expval sigma2Z p

/-- The norm of a complex 4-vector, `sqrt (Σ |v i|²)`. -/
noncomputable def vnorm (v : Vec4) : ℝ :=
  Real.sqrt (∑ i, Complex.normSq (v i))

/-- The complex inner product `⟨v, w⟩ = Σ conj (v i) * w i` on 4-vectors. -/
noncomputable def ip (v w : Vec4) : ℂ := star v ⬝ᵥ w

section KronAlgebra

theorem fin4_val_two : ((2 : Fin 4) : ℕ) = 2 := rfl

theorem fin4_val_three : ((3 : Fin 4) : ℕ) = 3 := rfl

/-- Mixed-product property of the flat Kronecker product. -/
theorem kron2_mul (A B C D : Mat2) :
    kron2 A B * kron2 C D = kron2 (A * C) (B * D) := by
  ext i j
  fin_cases i <;> fin_cases j <;>
    simp [kron2, Matrix.mul_apply, Fin.sum_univ_four, Fin.sum_univ_two,
      fin4_val_two, fin4_val_three] <;> ring

/-- Conjugate transpose distributes over the flat Kronecker product. -/
theorem kron2_conjTranspose (A B : Mat2) :
    (kron2 A B)ᴴ = kron2 Aᴴ Bᴴ := by
  ext i j
  fin_cases i <;> fin_cases j <;>
    simp [kron2, Matrix.conjTranspose_apply, fin4_val_two, fin4_val_three]

theorem identity_eq_one : identity = 1 := by
  ext i j
  fin_cases i <;> fin_cases j <;> simp [identity]

theorem kron2_one_one : kron2 identity identity = 1 := by
  ext i j
  fin_cases i <;> fin_cases j <;>
    simp [kron2, identity, fin4_val_two, fin4_val_three, Matrix.one_apply]

end KronAlgebra

section PauliFacts

/-- Closed form of `sigma1X@sigma2X + sigma1Y@sigma2Y + sigma1Z@sigma2Z`. -/
def Smat : Mat4 := !![1, 0, 0, 0; 0, -1, 2, 0; 0, 2, -1, 0; 0, 0, 0, 1]

theorem kron2_one : kron2 1 1 = 1 := by
  rw [← identity_eq_one, kron2_one_one]

theorem pauliX2_herm : (!![0, 1; 1, 0] : Mat2)ᴴ = !![0, 1; 1, 0] := by
  ext i j
  fin_cases i <;> fin_cases j <;> simp

theorem pauliY2_herm :
    (!![0, -Complex.I; Complex.I, 0] : Mat2)ᴴ = !![0, -Complex.I; Complex.I, 0] := by
  ext i j
  fin_cases i <;> fin_cases j <;> simp

theorem pauliZ2_herm : (!![1, 0; 0, -1] : Mat2)ᴴ = !![1, 0; 0, -1] := by
  ext i j
  fin_cases i <;> fin_cases j <;> simp

theorem one2_herm : ((1 : Mat2))ᴴ = 1 := Matrix.conjTranspose_one

theorem pauliX2_sq : (!![0, 1; 1, 0] : Mat2) * !![0, 1; 1, 0] = 1 := by
  ext i j
  fin_cases i <;> fin_cases j <;>
    simp [Matrix.mul_apply, Fin.sum_univ_two, Matrix.one_apply]

theorem pauliY2_sq :
    (!![0, -Complex.I; Complex.I, 0] : Mat2) * !![0, -Complex.I; Complex.I, 0] = 1 := by
  ext i j
  fin_cases i <;> fin_cases j <;>
    simp [Matrix.mul_apply, Fin.sum_univ_two, Matrix.one_apply]

theorem pauliZ2_sq : (!![1, 0; 0, -1] : Mat2) * !![1, 0; 0, -1] = 1 := by
  ext i j
  fin_cases i <;> fin_cases j <;>
    simp [Matrix.mul_apply, Fin.sum_univ_two, Matrix.one_apply]

theorem sigma1X_herm : sigma1Xᴴ = sigma1X := by
  rw [sigma1X, identity_eq_one, kron2_conjTranspose, pauliX2_herm, one2_herm]

theorem sigma1Y_herm : sigma1Yᴴ = sigma1Y := by
  rw [sigma1Y, identity_eq_one, kron2_conjTranspose, pauliY2_herm, one2_herm]

theorem sigma1Z_herm : sigma1Zᴴ = sigma1Z := by
  rw [sigma1Z, identity_eq_one, kron2_conjTranspose, pauliZ2_herm, one2_herm]

theorem sigma2X_herm : sigma2Xᴴ = sigma2X := by
  rw [sigma2X, identity_eq_one, kron2_conjTranspose, pauliX2_herm, one2_herm]

theorem sigma2Y_herm : sigma2Yᴴ = sigma2Y := by
  rw [sigma2Y, identity_eq_one, kron2_conjTranspose, pauliY2_herm, one2_herm]

theorem sigma2Z_herm : sigma2Zᴴ = sigma2Z := by
  rw [sigma2Z, identity_eq_one, kron2_conjTranspose, pauliZ2_herm, one2_herm]

theorem sigma1X_sq : sigma1X * sigma1X = 1 := by
  rw [sigma1X, identity_eq_one, kron2_mul, pauliX2_sq, one_mul, kron2_one]

theorem sigma1Y_sq : sigma1Y * sigma1Y = 1 := by
  rw [sigma1Y, identity_eq_one, kron2_mul, pauliY2_sq, one_mul, kron2_one]

theorem sigma1Z_sq : sigma1Z * sigma1Z = 1 := by
  rw [sigma1Z, identity_eq_one, kron2_mul, pauliZ2_sq, one_mul, kron2_one]

theorem sigma2X_sq : sigma2X * sigma2X = 1 := by
  rw [sigma2X, identity_eq_one, kron2_mul, pauliX2_sq, one_mul, kron2_one]

theorem sigma2Y_sq : sigma2Y * sigma2Y = 1 := by
  rw [sigma2Y, identity_eq_one, kron2_mul, pauliY2_sq, one_mul, kron2_one]

theorem sigma2Z_sq : sigma2Z * sigma2Z = 1 := by
  rw [sigma2Z, identity_eq_one, kron2_mul, pauliZ2_sq, one_mul, kron2_one]

/-- The three Pauli-product terms of the Hamiltonian sum to the explicit
matrix `Smat`. -/
theorem pauliSum_eq :
    sigma1X * sigma2X + sigma1Y * sigma2Y + sigma1Z * sigma2Z = Smat := by
  ext i j
  fin_cases i <;> fin_cases j <;>
    simp [sigma1X, sigma1Y, sigma1Z, sigma2X, sigma2Y, sigma2Z, identity, kron2,
      Matrix.mul_apply, Fin.sum_univ_four, fin4_val_two, fin4_val_three, Smat] <;>
    first
      | rfl
      | simp [Matrix.vecHead, Matrix.vecTail]
      | (ring_nf; try simp [Complex.I_sq])

end PauliFacts

section Hamiltonian

theorem Smat_herm : Smatᴴ = Smat := by
  ext i j
  fin_cases i <;> fin_cases j <;>
    simp [Smat, Matrix.vecHead, Matrix.vecTail]

/-- Closed form of `Hgen`: a real scalar times the explicit matrix `Smat`. -/
theorem Hgen_eq (hb : ℝ) : Hgen hb = ((J * hb / 4 : ℝ) : ℂ) • Smat := by
  rw [Hgen, pauliSum_eq]

theorem Hgen_herm (hb : ℝ) : (Hgen hb)ᴴ = Hgen hb := by
  rw [Hgen_eq, Matrix.conjTranspose_smul, Smat_herm, Complex.star_def,
    Complex.conj_ofReal]

/-- The matrix handed to `expm` is the scalar `-i·t/ħ` times `H`. -/
theorem expArg_eq (hb t : ℝ) :
    expArg hb t = (-Complex.I * (t : ℂ) / (hb : ℂ)) • Hgen hb := by
  ext a b
  simp only [expArg, Matrix.smul_apply, smul_eq_mul]
  ring

/-- The matrix handed to `expm` is skew-Hermitian. -/
theorem expArg_skew (hb t : ℝ) : (expArg hb t)ᴴ = -expArg hb t := by
  rw [expArg_eq, Matrix.conjTranspose_smul, Hgen_herm, ← neg_smul]
  congr 1
  simp [Complex.ext_iff]
  ring

/-- The exponential of a skew-Hermitian matrix is unitary. -/
theorem exp_skew_unitary {A : Mat4} (hA : Aᴴ = -A) :
    (exp ℂ A)ᴴ * exp ℂ A = 1 := by
  rw [← Matrix.exp_conjTranspose, hA,
    ← Matrix.exp_add_of_commute ℂ (-A) A (Commute.neg_left (Commute.refl A)),
    neg_add_cancel, exp_zero]

/-- The code's propagator `expm(-1j*H*t/hbar)` is unitary. -/
theorem U_unitary (hb t : ℝ) :
    (exp ℂ (expArg hb t))ᴴ * exp ℂ (expArg hb t) = 1 :=
  exp_skew_unitary (expArg_skew hb t)

end Hamiltonian

section InnerProduct

theorem ip_conj (v w : Vec4) : ip w v = star (ip v w) := by
  simp only [ip, Matrix.dotProduct, star_sum, Pi.star_apply, star_mul', star_star]
  exact Finset.sum_congr rfl fun i _ => mul_comm _ _

theorem ip_mulVec_left (M : Mat4) (v w : Vec4) :
    ip (M.mulVec v) w = ip v (Mᴴ.mulVec w) := by
  rw [ip, ip, Matrix.star_mulVec, Matrix.dotProduct_mulVec]

theorem ip_self_eq (v : Vec4) :
    ip v v = ((∑ i, Complex.normSq (v i) : ℝ) : ℂ) := by
  push_cast
  simp [ip, Matrix.dotProduct, Complex.normSq_eq_conj_mul_self]

theorem ip_mulVec_unitary {M : Mat4} (hM : Mᴴ * M = 1) (v : Vec4) :
    ip (M.mulVec v) (M.mulVec v) = ip v v := by
  rw [ip_mulVec_left, Matrix.mulVec_mulVec, hM, Matrix.one_mulVec]

theorem normSqSum_eq_ip_re (v : Vec4) :
    ∑ i, Complex.normSq (v i) = (ip v v).re := by
  rw [ip_self_eq, Complex.ofReal_re]

theorem vnorm_mulVec_unitary {M : Mat4} (hM : Mᴴ * M = 1) (v : Vec4) :
    vnorm (M.mulVec v) = vnorm v := by
  rw [vnorm, vnorm, normSqSum_eq_ip_re, normSqSum_eq_ip_re, ip_mulVec_unitary hM]

theorem sqrt2_sq : (Real.sqrt 2 : ℂ) * (Real.sqrt 2 : ℂ) = 2 := by
  norm_cast
  rw [Real.mul_self_sqrt] <;> norm_num

/-- The initial joint state is normalized. -/
theorem ip_psi0 : ip psi0 psi0 = 1 := by
  simp only [ip, Matrix.dotProduct, Fin.sum_univ_four, Pi.star_apply, psi0, kronVec,
    psi1, psi2, fin4_val_two, fin4_val_three]
  norm_num [Matrix.cons_val_zero, Matrix.cons_val_one, Matrix.head_cons]
  rw [Complex.ext_iff]
  constructor <;> simp [Complex.div_re, Complex.div_im, Complex.normSq] <;> ring_nf <;>
    norm_num [Real.sq_sqrt]

/-- Every state of the trajectory is normalized (for any value of `hbar`). -/
theorem ip_psiTGen (hb t : ℝ) : ip (psiTGen hb t) (psiTGen hb t) = 1 := by
  rw [psiTGen, ip_mulVec_unitary (U_unitary hb t), ip_psi0]

theorem vnorm_psi0 : vnorm psi0 = 1 := by
  rw [vnorm, normSqSum_eq_ip_re, ip_psi0]
  norm_num

theorem vnorm_psiTGen (hb t : ℝ) : vnorm (psiTGen hb t) = 1 := by
  rw [vnorm, normSqSum_eq_ip_re, ip_psiTGen]
  norm_num

end InnerProduct

section Plumbing

theorem timeGrid_length : timeGrid.length = 101 := by
  rw [timeGrid, List.length_map, List.length_range]

theorem psiT_length : psiT.length = 101 := by
  rw [psiT, trajGen, List.length_map, timeGrid_length]

theorem x1_length : x1.length = 101 := by
  rw [x1, List.length_map, psiT_length]

theorem y1_length : y1.length = 101 := by
  rw [y1, List.length_map, psiT_length]

theorem z1_length : z1.length = 101 := by
  rw [z1, List.length_map, psiT_length]

theorem x2_length : x2.length = 101 := by
  rw [x2, List.length_map, psiT_length]

theorem y2_length : y2.length = 101 := by
  rw [y2, List.length_map, psiT_length]

theorem z2_length : z2.length = 101 := by
  rw [z2, List.length_map, psiT_length]

theorem timeGrid_getD (i : ℕ) (h : i < 101) :
    timeGrid.getD i 0 = (0.5 / 100) * i := by
  rw [List.getD_eq_getElem _ _ (by simpa [timeGrid_length] using h)]
  simp only [timeGrid, List.getElem_map, List.getElem_range]

theorem psiT_getD (i : ℕ) (h : i < 101) :
    psiT.getD i 0 = psiTGen hbar ((0.5 / 100) * i) := by
  rw [List.getD_eq_getElem _ _ (by simpa [psiT_length] using h)]
  simp only [psiT, trajGen, timeGrid, List.map_map, List.getElem_map, List.getElem_range,
    Function.comp_apply]

theorem x1_getD (i : ℕ) (h : i < 101) :
    x1.getD i 0 = expval sigma1X (psiTGen hbar ((0.5 / 100) * i)) := by
  rw [List.getD_eq_getElem _ _ (by simpa [x1_length] using h)]
  simp only [x1, psiT, trajGen, timeGrid, List.map_map, List.getElem_map,
    List.getElem_range, Function.comp_apply]

theorem y1_getD (i : ℕ) (h : i < 101) :
    y1.getD i 0 = expval sigma1Y (psiTGen hbar ((0.5 / 100) * i)) := by
  rw [List.getD_eq_getElem _ _ (by simpa [y1_length] using h)]
  simp only [y1, psiT, trajGen, timeGrid, List.map_map, List.getElem_map,
    List.getElem_range, Function.comp_apply]

theorem z1_getD (i : ℕ) (h : i < 101) :
    z1.getD i 0 = expval sigma1Z (psiTGen hbar ((0.5 / 100) * i)) := by
  rw [List.getD_eq_getElem _ _ (by simpa [z1_length] using h)]
  simp only [z1, psiT, trajGen, timeGrid, List.map_map, List.getElem_map,
    List.getElem_range, Function.comp_apply]

theorem x2_getD (i : ℕ) (h : i < 101) :
    x2.getD i 0 = expval sigma2X (psiTGen hbar ((0.5 / 100) * i)) := by
  rw [List.getD_eq_getElem _ _ (by simpa [x2_length] using h)]
  simp only [x2, psiT, trajGen, timeGrid, List.map_map, List.getElem_map,
    List.getElem_range, Function.comp_apply]

theorem y2_getD (i : ℕ) (h : i < 101) :
    y2.getD i 0 = expval sigma2Y (psiTGen hbar ((0.5 / 100) * i)) := by
  rw [List.getD_eq_getElem _ _ (by simpa [y2_length] using h)]
  simp only [y2, psiT, trajGen, timeGrid, List.map_map, List.getElem_map,
    List.getElem_range, Function.comp_apply]

theorem z2_getD (i : ℕ) (h : i < 101) :
    z2.getD i 0 = expval sigma2Z (psiTGen hbar ((0.5 / 100) * i)) := by
  rw [List.getD_eq_getElem _ _ (by simpa [z2_length] using h)]
  simp only [z2, psiT, trajGen, timeGrid, List.map_map, List.getElem_map,
    List.getElem_range, Function.comp_apply]

end Plumbing

section ExpectationBound

/-- The code's expectation expression equals `Re ⟨p, σ p⟩`. -/
theorem expval_eq_ip (sigma : Mat4) (p : Vec4) :
    expval sigma p = (ip p (sigma.mulVec p)).re := by
  rw [expval, ip, Matrix.dotProduct_mulVec]

theorem ip_self_re_nonneg (v : Vec4) : 0 ≤ (ip v v).re := by
  rw [← normSqSum_eq_ip_re]
  exact Finset.sum_nonneg fun i _ => Complex.normSq_nonneg _

theorem ip_bilinear_add (v u : Vec4) :
    ip (v + u) (v + u) = ip v v + ip v u + ip u v + ip u u := by
  simp [ip, star_add, Matrix.add_dotProduct, Matrix.dotProduct_add]
  ring

theorem ip_bilinear_sub (v u : Vec4) :
    ip (v - u) (v - u) = ip v v - ip v u - ip u v + ip u u := by
  simp [ip, star_sub, Matrix.sub_dotProduct, Matrix.dotProduct_sub]
  ring

theorem ip_expand_add (v u : Vec4) :
    (ip (v + u) (v + u)).re = (ip v v).re + (ip u u).re + 2 * (ip v u).re := by
  rw [ip_bilinear_add, ip_conj v u]
  simp [Complex.add_re]
  ring

theorem ip_expand_sub (v u : Vec4) :
    (ip (v - u) (v - u)).re = (ip v v).re + (ip u u).re - 2 * (ip v u).re := by
  rw [ip_bilinear_sub, ip_conj v u]
  simp [Complex.add_re, Complex.sub_re]
  ring

/-- Expectation of a Hermitian involutive operator in a normalized state
lies in `[-1, 1]`. -/
theorem expval_mem_Icc {sigma : Mat4} (hherm : sigmaᴴ = sigma)
    (hsq : sigma * sigma = 1) {v : Vec4} (hv : ip v v = 1) :
    -1 ≤ expval sigma v ∧ expval sigma v ≤ 1 := by
  have hσ : sigmaᴴ * sigma = 1 := by rw [hherm, hsq]
  have hu : ip (sigma.mulVec v) (sigma.mulVec v) = 1 := by
    rw [ip_mulVec_unitary hσ, hv]
  have hplus := ip_self_re_nonneg (v + sigma.mulVec v)
  have hminus := ip_self_re_nonneg (v - sigma.mulVec v)
  rw [ip_expand_add, hv, hu] at hplus
  rw [ip_expand_sub, hv, hu] at hminus
  rw [expval_eq_ip]
  norm_num at hplus hminus
  constructor <;> linarith

end ExpectationBound

section MoreHelpers

theorem ip_mulVec_unitary2 {M : Mat4} (hM : Mᴴ * M = 1) (v w : Vec4) :
    ip (M.mulVec v) (M.mulVec w) = ip v w := by
  rw [ip_mulVec_left, Matrix.mulVec_mulVec, hM, Matrix.one_mulVec]

theorem expArg_time_zero (hb : ℝ) : expArg hb 0 = 0 := by
  ext a b
  simp [expArg]

/-- At `t = 0` the propagator is the identity and the state is `psi0`. -/
theorem psiTGen_time_zero (hb : ℝ) : psiTGen hb 0 = psi0 := by
  rw [psiTGen, expArg_time_zero, exp_zero, Matrix.one_mulVec]

theorem expArg_hb_zero (t : ℝ) : expArg 0 t = 0 := by
  ext a b
  simp [expArg]

/-- With `hbar = 0` the code still evaluates: the `expm` argument
degenerates to the zero matrix (division by zero is zero in the exact
model) and the result is `psi0`, not an error. -/
theorem psiTGen_hb_zero (t : ℝ) : psiTGen 0 t = psi0 := by
  rw [psiTGen, expArg_hb_zero, exp_zero, Matrix.one_mulVec]

/-- The `hbar` in the Hamiltonian cancels the `hbar` in the propagator. -/
theorem expArg_cancel {hb : ℝ} (hhb : hb ≠ 0) (t : ℝ) :
    expArg hb t = expArg 1 t := by
  rw [expArg_eq, expArg_eq, Hgen_eq, Hgen_eq, smul_smul, smul_smul]
  congr 1
  have hc : (hb : ℂ) ≠ 0 := by exact_mod_cast hhb
  field_simp
  ring

theorem expArg_one_eq (t : ℝ) :
    expArg 1 t =
      (-Complex.I * ((J / 4 : ℝ) : ℂ) * (t : ℂ)) •
        (sigma1X * sigma2X + sigma1Y * sigma2Y + sigma1Z * sigma2Z) := by
  rw [expArg_eq, Hgen_eq, smul_smul, pauliSum_eq]
  congr 1
  push_cast
  ring

/-- Explicit components of the initial joint state. -/
theorem psi0_eq :
    psi0 = ![((Real.sqrt 2 : ℂ))⁻¹, ((Real.sqrt 2 : ℂ))⁻¹, 0, 0] := by
  funext i
  fin_cases i <;>
    simp [psi0, kronVec, psi1, psi2, fin4_val_two, fin4_val_three] <;>
    norm_num [one_div]

theorem sigmaZsum_eq :
    sigma1Z + sigma2Z = !![2, 0, 0, 0; 0, 0, 0, 0; 0, 0, 0, 0; 0, 0, 0, -2] := by
  ext i j
  fin_cases i <;> fin_cases j <;>
    simp [sigma1Z, sigma2Z, kron2, identity, fin4_val_two, fin4_val_three,
      Matrix.vecHead, Matrix.vecTail] <;>
    norm_num

theorem Smat_commute_Zsum : Commute Smat (sigma1Z + sigma2Z) := by
  rw [sigmaZsum_eq, Commute, SemiconjBy]
  ext i j
  fin_cases i <;> fin_cases j <;>
    simp [Smat, Matrix.mul_apply, Fin.sum_univ_four, fin4_val_two, fin4_val_three,
      Matrix.vecHead, Matrix.vecTail] <;>
    norm_num

theorem expArg_commute_Zsum (hb t : ℝ) :
    Commute (expArg hb t) (sigma1Z + sigma2Z) := by
  rw [expArg_eq, Hgen_eq, smul_smul]
  exact (Smat_commute_Zsum).smul_left _

/-- Expectation of an operator commuting with the (skew-Hermitian)
exponent is conserved along the evolution. -/
theorem ip_conserved {A M : Mat4} (hskew : Aᴴ = -A) (hcomm : Commute A M)
    (v : Vec4) :
    ip ((exp ℂ A).mulVec v) (M.mulVec ((exp ℂ A).mulVec v)) = ip v (M.mulVec v) := by
  have hU : (exp ℂ A)ᴴ * exp ℂ A = 1 := exp_skew_unitary hskew
  have hUM : Commute (exp ℂ A) M := hcomm.exp_left ℂ
  rw [Matrix.mulVec_mulVec, ← hUM.eq, ← Matrix.mulVec_mulVec, ip_mulVec_unitary2 hU]

end MoreHelpers

section ConcreteValues

theorem inv_sqrt2_mul_self : ((Real.sqrt 2 : ℂ))⁻¹ * ((Real.sqrt 2 : ℂ))⁻¹ = 2⁻¹ := by
  rw [← mul_inv]
  norm_cast
  rw [Real.mul_self_sqrt] <;> norm_num

theorem expval_sigma1X_psi0 : expval sigma1X psi0 = 0 := by
  rw [expval_eq_ip, psi0_eq]
  simp [ip, Matrix.dotProduct, Matrix.mulVec, Fin.sum_univ_four, sigma1X, kron2,
    identity, fin4_val_two, fin4_val_three]

theorem expval_sigma1Y_psi0 : expval sigma1Y psi0 = 0 := by
  rw [expval_eq_ip, psi0_eq]
  simp [ip, Matrix.dotProduct, Matrix.mulVec, Fin.sum_univ_four, sigma1Y, kron2,
    identity, fin4_val_two, fin4_val_three]

theorem expval_sigma1Z_psi0 : expval sigma1Z psi0 = 1 := by
  rw [expval_eq_ip, psi0_eq]
  simp [ip, Matrix.dotProduct, Matrix.mulVec, Fin.sum_univ_four, sigma1Z, kron2,
    identity, fin4_val_two, fin4_val_three, inv_sqrt2_mul_self]
  norm_num [Complex.ext_iff]

theorem expval_sigma2X_psi0 : expval sigma2X psi0 = 1 := by
  rw [expval_eq_ip, psi0_eq]
  simp [ip, Matrix.dotProduct, Matrix.mulVec, Fin.sum_univ_four, sigma2X, kron2,
    identity, fin4_val_two, fin4_val_three, inv_sqrt2_mul_self]
  norm_num [Complex.ext_iff]

theorem expval_sigma2Y_psi0 : expval sigma2Y psi0 = 0 := by
  rw [expval_eq_ip, psi0_eq]
  simp [ip, Matrix.dotProduct, Matrix.mulVec, Fin.sum_univ_four, sigma2Y, kron2,
    identity, fin4_val_two, fin4_val_three]

theorem expval_sigma2Z_psi0 : expval sigma2Z psi0 = 0 := by
  rw [expval_eq_ip, psi0_eq]
  simp [ip, Matrix.dotProduct, Matrix.mulVec, Fin.sum_univ_four, sigma2Z, kron2,
    identity, fin4_val_two, fin4_val_three]

theorem ip_psi0_Zsum : (ip psi0 ((sigma1Z + sigma2Z).mulVec psi0)).re = 1 := by
  rw [sigmaZsum_eq, psi0_eq]
  simp [ip, Matrix.dotProduct, Matrix.mulVec, Fin.sum_univ_four,
    Matrix.vecHead, Matrix.vecTail, inv_sqrt2_mul_self]
  norm_num [Complex.ext_iff]
  have h2 : Real.sqrt 2 * Real.sqrt 2 = 2 := Real.mul_self_sqrt (by norm_num)
  linear_combination h2 / 2

end ConcreteValues

theorem hbar_ne_zero : hbar ≠ 0 := by norm_num [hbar]

section Claims

/-- C1: for every time `t` in the time grid, the trajectory entry is the
matrix exponential `exp (−i·H·t/ħ)` applied to the initial joint state
`psi0`, each sample computed directly from `psi0` (the loop body is a
fresh `expm` applied to `psi0`, not a composition of previous
propagators), and the trajectory is aligned index-for-index with the
time grid. -/
theorem C1_propagator_per_sample :
    psiT.length = timeGrid.length ∧
      ∀ i : ℕ, i < 101 →
        psiT.getD i 0 =
          (exp ℂ ((-Complex.I * ((timeGrid.getD i 0 : ℝ) : ℂ) / (hbar : ℂ)) •
            H)).mulVec psi0 := by
  refine ⟨by rw [psiT_length, timeGrid_length], fun i h => ?_⟩
  rw [psiT_getD i h, timeGrid_getD i h, psiTGen, expArg_eq, H]

/-- C1 witness at the first grid point. -/
theorem C1_propagator_per_sample_witness :
    psiT.getD 0 0 =
      (exp ℂ ((-Complex.I * ((timeGrid.getD 0 0 : ℝ) : ℂ) / (hbar : ℂ)) •
        H)).mulVec psi0 :=
  C1_propagator_per_sample.2 0 (by norm_num)

/-- C2: every evolved state of the trajectory has unit norm, equal to
the norm of the initial state `psi0`. -/
theorem C2_unit_norm :
    vnorm psi0 = 1 ∧
      ∀ i : ℕ, i < 101 →
        vnorm (psiT.getD i 0) = 1 ∧ vnorm (psiT.getD i 0) = vnorm psi0 := by
  refine ⟨vnorm_psi0, fun i h => ?_⟩
  rw [psiT_getD i h, vnorm_psiTGen, vnorm_psi0]
  exact ⟨rfl, rfl⟩

/-- C2 witness at the first grid point. -/
theorem C2_unit_norm_witness : vnorm (psiT.getD 0 0) = 1 :=
  (C2_unit_norm.2 0 (by norm_num)).1

/-- C3: the assembled Hamiltonian is `(J·ħ/4)` times the sum of the
three Pauli products, the products being ordinary complex matrix
multiplications and the sum elementwise; its explicit value is
`(J·ħ/4) • Smat`. -/
theorem C3_hamiltonian_formula :
    H = ((J * hbar / 4 : ℝ) : ℂ) •
        (sigma1X * sigma2X + sigma1Y * sigma2Y + sigma1Z * sigma2Z) ∧
      H = ((J * hbar / 4 : ℝ) : ℂ) • Smat :=
  ⟨rfl, by rw [H, Hgen_eq]⟩

/-- C4: the assembled Hamiltonian is Hermitian. -/
theorem C4_H_hermitian : Hᴴ = H := by
  rw [H]
  exact Hgen_herm hbar

/-- C5: each of the six observable series has the trajectory's (hence
the time grid's) length, and its `i`-th entry is
`Re ⟨ψ(tᵢ), σ ψ(tᵢ)⟩`. -/
theorem C5_observable_series :
    (x1.length = timeGrid.length ∧ y1.length = timeGrid.length ∧
        z1.length = timeGrid.length ∧ x2.length = timeGrid.length ∧
        y2.length = timeGrid.length ∧ z2.length = timeGrid.length ∧
        psiT.length = timeGrid.length) ∧
      ∀ i : ℕ, i < 101 →
        x1.getD i 0 = (ip (psiT.getD i 0) (sigma1X.mulVec (psiT.getD i 0))).re ∧
        y1.getD i 0 = (ip (psiT.getD i 0) (sigma1Y.mulVec (psiT.getD i 0))).re ∧
        z1.getD i 0 = (ip (psiT.getD i 0) (sigma1Z.mulVec (psiT.getD i 0))).re ∧
        x2.getD i 0 = (ip (psiT.getD i 0) (sigma2X.mulVec (psiT.getD i 0))).re ∧
        y2.getD i 0 = (ip (psiT.getD i 0) (sigma2Y.mulVec (psiT.getD i 0))).re ∧
        z2.getD i 0 = (ip (psiT.getD i 0) (sigma2Z.mulVec (psiT.getD i 0))).re := by
  refine ⟨⟨by rw [x1_length, timeGrid_length], by rw [y1_length, timeGrid_length],
    by rw [z1_length, timeGrid_length], by rw [x2_length, timeGrid_length],
    by rw [y2_length, timeGrid_length], by rw [z2_length, timeGrid_length],
    by rw [psiT_length, timeGrid_length]⟩, fun i h => ?_⟩
  rw [psiT_getD i h, x1_getD i h, y1_getD i h, z1_getD i h, x2_getD i h,
    y2_getD i h, z2_getD i h]
  exact ⟨expval_eq_ip _ _, expval_eq_ip _ _, expval_eq_ip _ _, expval_eq_ip _ _,
    expval_eq_ip _ _, expval_eq_ip _ _⟩

/-- C5 witness at the first grid point. -/
theorem C5_observable_series_witness :
    x1.getD 0 0 = (ip (psiT.getD 0 0) (sigma1X.mulVec (psiT.getD 0 0))).re :=
  (C5_observable_series.2 0 (by norm_num)).1

/-- C6: every entry of each of the six observable series lies in
`[-1, 1]`. -/
theorem C6_expectations_in_unit_interval :
    ∀ i : ℕ, i < 101 →
      (-1 ≤ x1.getD i 0 ∧ x1.getD i 0 ≤ 1) ∧
      (-1 ≤ y1.getD i 0 ∧ y1.getD i 0 ≤ 1) ∧
      (-1 ≤ z1.getD i 0 ∧ z1.getD i 0 ≤ 1) ∧
      (-1 ≤ x2.getD i 0 ∧ x2.getD i 0 ≤ 1) ∧
      (-1 ≤ y2.getD i 0 ∧ y2.getD i 0 ≤ 1) ∧
      (-1 ≤ z2.getD i 0 ∧ z2.getD i 0 ≤ 1) := by
  intro i h
  have hψ := ip_psiTGen hbar ((0.5 / 100) * i)
  rw [x1_getD i h, y1_getD i h, z1_getD i h, x2_getD i h, y2_getD i h, z2_getD i h]
  exact ⟨expval_mem_Icc sigma1X_herm sigma1X_sq hψ,
    expval_mem_Icc sigma1Y_herm sigma1Y_sq hψ,
    expval_mem_Icc sigma1Z_herm sigma1Z_sq hψ,
    expval_mem_Icc sigma2X_herm sigma2X_sq hψ,
    expval_mem_Icc sigma2Y_herm sigma2Y_sq hψ,
    expval_mem_Icc sigma2Z_herm sigma2Z_sq hψ⟩

/-- C6 witness at the first grid point. -/
theorem C6_expectations_in_unit_interval_witness :
    -1 ≤ x1.getD 0 0 ∧ x1.getD 0 0 ≤ 1 :=
  (C6_expectations_in_unit_interval 0 (by norm_num)).1

/-- C7 counterexample: with `hbar = 0` the propagation loop body is
still evaluated and returns a state (in the exact model, division by
zero is zero, the `expm` argument collapses to the zero matrix, and the
result is `psi0`); the code contains no guard and no `InvalidParameter`
error path, so propagation does not fail. -/
theorem C7_counterexample_no_failure : psiTGen 0 1 = psi0 :=
  psiTGen_hb_zero 1

/-- C7 (amended): the code performs no explicit zero-`hbar` guard: the
propagation expression is evaluated unconditionally for every `hbar`,
and with `hbar = 0` it returns `psi0` for every sample time instead of
failing. -/
theorem C7_no_zero_hbar_guard : ∀ t : ℝ, psiTGen 0 t = psi0 := fun t =>
  psiTGen_hb_zero t

/-- C8: in the reference configuration (`J = 2π`, `ψ1 = (1,0)`,
`ψ2 = (1,1)/√2`, 101 grid points starting at `t = 0`), the six series
start at `(x1,y1,z1) = (0,0,1)` and `(x2,y2,z2) = (1,0,0)`. -/
theorem C8_initial_observables :
    timeGrid.getD 0 0 = 0 ∧ timeGrid.length = 101 ∧ J = 2 * Real.pi ∧
      x1.getD 0 0 = 0 ∧ y1.getD 0 0 = 0 ∧ z1.getD 0 0 = 1 ∧
      x2.getD 0 0 = 1 ∧ y2.getD 0 0 = 0 ∧ z2.getD 0 0 = 0 := by
  refine ⟨by rw [timeGrid_getD 0 (by norm_num)]; norm_num, timeGrid_length, rfl,
    ?_, ?_, ?_, ?_, ?_, ?_⟩
  · rw [x1_getD 0 (by norm_num)]
    norm_num [psiTGen_time_zero, expval_sigma1X_psi0]
  · rw [y1_getD 0 (by norm_num)]
    norm_num [psiTGen_time_zero, expval_sigma1Y_psi0]
  · rw [z1_getD 0 (by norm_num)]
    norm_num [psiTGen_time_zero, expval_sigma1Z_psi0]
  · rw [x2_getD 0 (by norm_num)]
    norm_num [psiTGen_time_zero, expval_sigma2X_psi0]
  · rw [y2_getD 0 (by norm_num)]
    norm_num [psiTGen_time_zero, expval_sigma2Y_psi0]
  · rw [z2_getD 0 (by norm_num)]
    norm_num [psiTGen_time_zero, expval_sigma2Z_psi0]

end Claims

section ClaimsConservation

/-- Total z-magnetization is conserved along the trajectory: the
exponent commutes with `sigma1Z + sigma2Z`. -/
theorem zsum_conserved (t : ℝ) :
    expval sigma1Z (psiTGen hbar t) + expval sigma2Z (psiTGen hbar t) = 1 := by
  rw [expval_eq_ip, expval_eq_ip]
  have hadd : (ip (psiTGen hbar t) (sigma1Z.mulVec (psiTGen hbar t))).re +
      (ip (psiTGen hbar t) (sigma2Z.mulVec (psiTGen hbar t))).re =
      (ip (psiTGen hbar t) ((sigma1Z + sigma2Z).mulVec (psiTGen hbar t))).re := by
    rw [Matrix.add_mulVec]
    simp [ip, Matrix.dotProduct_add]
  rw [hadd, psiTGen,
    ip_conserved (expArg_skew hbar t) (expArg_commute_Zsum hbar t), ip_psi0_Zsum]

/-- C9: the sum of the two z-expectation series is constant along the
trajectory, equal to its initial value `1` (total z-magnetization is
conserved because the exchange Hamiltonian commutes with
`sigma1Z + sigma2Z`). -/
theorem C9_total_z_conserved :
    ∀ i : ℕ, i < 101 →
      z1.getD i 0 + z2.getD i 0 = 1 ∧
        z1.getD i 0 + z2.getD i 0 = z1.getD 0 0 + z2.getD 0 0 := by
  intro i h
  have h0 : z1.getD 0 0 + z2.getD 0 0 = 1 := by
    rw [z1_getD 0 (by norm_num), z2_getD 0 (by norm_num), zsum_conserved]
  have hi : z1.getD i 0 + z2.getD i 0 = 1 := by
    rw [z1_getD i h, z2_getD i h, zsum_conserved]
  exact ⟨hi, by rw [hi, h0]⟩

/-- C9 witness at the first grid point. -/
theorem C9_total_z_conserved_witness : z1.getD 0 0 + z2.getD 0 0 = 1 :=
  (C9_total_z_conserved 0 (by norm_num)).1

/-- C10: the trajectory does not depend on the value of `hbar`: for any
nonzero `hbar` the state equals
`exp (−i·(J/4)·(σ1x σ2x + σ1y σ2y + σ1z σ2z)·t) ψ0` — the `hbar` of the
Hamiltonian cancels the `hbar` of the propagator — and the whole
pipeline run with `hbar` replaced by `1` produces the same trajectory. -/
theorem C10_hbar_independent :
    ∀ hb : ℝ, hb ≠ 0 →
      (∀ t : ℝ,
        psiTGen hb t =
          (exp ℂ ((-Complex.I * ((J / 4 : ℝ) : ℂ) * (t : ℂ)) •
            (sigma1X * sigma2X + sigma1Y * sigma2Y + sigma1Z * sigma2Z))).mulVec
            psi0 ∧
        psiTGen hb t = psiTGen 1 t) ∧
      trajGen hb = trajGen 1 ∧ psiT = trajGen 1 := by
  intro hb hhb
  have hfun : ∀ hb' : ℝ, hb' ≠ 0 → trajGen hb' = trajGen 1 := by
    intro hb' hhb'
    rw [trajGen, trajGen]
    have : (fun t => psiTGen hb' t) = fun t => psiTGen 1 t :=
      funext fun t => by rw [psiTGen, psiTGen, expArg_cancel hhb' t]
    rw [this]
  refine ⟨fun t => ⟨?_, ?_⟩, hfun hb hhb, ?_⟩
  · rw [psiTGen, expArg_cancel hhb t, expArg_one_eq]
  · rw [psiTGen, psiTGen, expArg_cancel hhb t]
  · rw [psiT]
    exact hfun hbar hbar_ne_zero

/-- C10 witness at `hbar = 2`, `t = 1`. -/
theorem C10_hbar_independent_witness :
    (2 : ℝ) ≠ 0 ∧ psiTGen 2 1 = psiTGen 1 1 :=
  ⟨by norm_num, ((C10_hbar_independent 2 (by norm_num)).1 1).2⟩

end ClaimsConservation
